import Mathlib

/-!
Shallow embedding of the wavefront-error module `poppy/wfe.py`
(classes ParameterizedWFE, ZernikeWFE, SineWaveWFE, StatisticalPSDWFE,
PowerSpectrumWFE, KolmogorovWFE), together with theorems settling the
specification claims about it.

Modelling conventions used throughout:

* 2-D numpy arrays of floats become total functions `ℕ → ℕ → ℝ` (or `ℚ`
  where a claim needs decidable evaluation, or `ℂ` for complex arrays);
  the grid size enters through the explicit `Finset.range` sums of the
  discrete Fourier transforms and of the statistics.
* `np.random.RandomState(); seed(s); normal(size=(n, n))` is a pure
  function of the seed.  It is modelled by an abstract generator
  `normal : ℕ → ℕ → ℕ → ℝ` (seed value, row, column) that every theorem
  quantifies over; a `None` seed is modelled by a fresh per-call entropy
  value substituted for the seed (`resolveSeed`).
* External collaborators that are not part of the source file
  (`CircularAperture.get_transmission`, the Zernike basis functions,
  `get_coordinates`, the astropy unit bookkeeping) are abstract
  parameters; physical quantities are their values in base SI units and
  unit-conversion factors are 1.
* Python exceptions become an `Except Err` result; mutation of the
  error-source object (the `self.opd` cache and the `screen_size`
  write-back of `PowerSpectrumWFE.get_opd`) is explicit state passing:
  `get_opd` returns the updated configuration record next to its result,
  and the updated configuration is returned even when an exception
  escapes after the mutation, as in Python.
-/

namespace PoppyWFE

/-- Real-valued 2-D array (numpy `float64` array, idealised to `ℝ`). -/
abbrev MatR := ℕ → ℕ → ℝ

/-- Complex-valued 2-D array. -/
abbrev MatC := ℕ → ℕ → ℂ

/-- The Python exception classes that the module can raise. -/
inductive Err where
  | valueError
  | typeError
  | attributeError
  | indexError
  | exception
  deriving DecidableEq

/-- Observable side effects we track: a call to
`RandomState.normal(size=(n, n))` drawing an n-by-n Gaussian array. -/
inductive Event where
  | normalDraw (n : ℕ)
  deriving DecidableEq

/-- `true` iff an `Except` result is a success. -/
def exceptOk {ε α : Type} : Except ε α → Bool
  | .ok _ => true
  | .error _ => false

/-- Seed actually fed to the freshly created `RandomState`: the configured
seed if one is set, otherwise a fresh entropy value private to the call. -/
def resolveSeed : Option ℕ → ℕ → ℕ
  | some k, _ => k
  | none, e => e

/-- `np.fft.fftshift` on an n-by-n array: entry `i` comes from entry
`(i + ⌈n/2⌉) mod n`, moving the zero-frequency sample to the centre. -/
def fftshiftA {α : Type} (n : ℕ) (f : ℕ → ℕ → α) : ℕ → ℕ → α :=
  fun i j => f ((i + (n + 1) / 2) % n) ((j + (n + 1) / 2) % n)

/-- `np.fft.ifftshift`, the inverse shift (entry `i` from `(i + ⌊n/2⌋) mod n`). -/
def ifftshiftA {α : Type} (n : ℕ) (f : ℕ → ℕ → α) : ℕ → ℕ → α :=
  fun i j => f ((i + n / 2) % n) ((j + n / 2) % n)

/-- `np.fft.fft2` on an n-by-n array (numpy forward convention, no
normalisation factor). -/
noncomputable def fft2 (n : ℕ) (f : MatC) : MatC :=
  fun u v =>
    ∑ x in Finset.range n, ∑ y in Finset.range n,
      f x y *
        Complex.exp (-2 * (Real.pi : ℂ) * Complex.I *
          ((u : ℂ) * (x : ℂ) + (v : ℂ) * (y : ℂ)) / (n : ℂ))

/-- `np.fft.ifft2` on an n-by-n array (numpy inverse convention, with the
`1/n²` normalisation factor). -/
noncomputable def ifft2 (n : ℕ) (f : MatC) : MatC :=
  fun u v =>
    (1 / (n : ℂ) ^ 2) *
      ∑ x in Finset.range n, ∑ y in Finset.range n,
        f x y *
          Complex.exp (2 * (Real.pi : ℂ) * Complex.I *
            ((u : ℂ) * (x : ℂ) + (v : ℂ) * (y : ℂ)) / (n : ℂ))

/-- `np.fft.fftfreq(n, d)[i]`: `i/(n·d)` for `i < ⌈n/2⌉`, else `(i-n)/(n·d)`. -/
noncomputable def fftfreqVal (n : ℕ) (d : ℝ) (i : ℕ) : ℝ :=
  (if i < (n + 1) / 2 then (i : ℝ) else (i : ℝ) - (n : ℝ)) / ((n : ℝ) * d)

/-- Modelled from the spec: `poppy.utils.pad_or_crop_to_shape` is not part
of the provided source file; per the spec it centrally crops an array that
is larger than the target shape and centrally zero-pads a smaller one.
`source` is the shape of `f`, `target` the requested shape. -/
def padOrCrop (target source : ℕ) (f : MatR) : MatR :=
  if target ≤ source then
    fun i j => f (i + (source - target) / 2) (j + (source - target) / 2)
  else
    fun i j =>
      if (target - source) / 2 ≤ i ∧ i < (target - source) / 2 + source ∧
          (target - source) / 2 ≤ j ∧ j < (target - source) / 2 + source then
        f (i - (target - source) / 2) (j - (target - source) / 2)
      else 0

/-- Pixels of an n-by-n grid selected by a Boolean aperture mask. -/
def maskPixels (n : ℕ) (ap : ℕ → ℕ → Bool) : Finset (ℕ × ℕ) :=
  (Finset.range n ×ˢ Finset.range n).filter (fun p => ap p.1 p.2 = true)

/-- `np.sqrt(np.mean(np.square(a[ap == True])))`: root-mean-square of the
entries of an n-by-n array selected by a Boolean aperture mask. -/
noncomputable def rmsOver (n : ℕ) (ap : ℕ → ℕ → Bool) (f : MatR) : ℝ :=
  Real.sqrt ((∑ p in maskPixels n ap, f p.1 p.2 ^ 2) / (maskPixels n ap).card)

/-- `np.mean` of an n-by-n real array. -/
noncomputable def matMean (n : ℕ) (f : MatR) : ℝ :=
  (∑ p in Finset.range n ×ˢ Finset.range n, f p.1 p.2) / ((n : ℝ) ^ 2)

/-- `np.std` of an n-by-n real array. -/
noncomputable def matStd (n : ℕ) (f : MatR) : ℝ :=
  Real.sqrt (matMean n (fun i j => (f i j - matMean n f) ^ 2))

/-- Descriptor of the wavefront object handed to `get_opd` by the
propagation engine (an external collaborator).  `coordY`/`coordX` are the
metre-valued coordinate arrays returned by `get_coordinates`, and
`isBaseWavefront` records whether the argument is an instance of
`BaseWavefront` (the property tested by the `_check_wavefront_arg`
decorator). -/
structure WaveDesc where
  shape : ℕ
  pixelscale : ℝ
  ispadded : Bool
  oversample : ℕ
  wavelength : ℝ
  isBaseWavefront : Bool
  coordY : MatR
  coordX : MatR

/-- `_wave_y_x_to_rho_theta`, rho component:
`rho = sqrt(x**2 + y**2) / pupil_radius`. -/
noncomputable def rhoOf (wave : WaveDesc) (radius : ℝ) : MatR :=
  fun i j => Real.sqrt (wave.coordX i j ^ 2 + wave.coordY i j ^ 2) / radius

/-- `_wave_y_x_to_rho_theta`, theta component:
`theta = arctan2(y / radius, x / radius)`, modelled as the argument of the
complex number `x/radius + i·y/radius` (equal to `atan2` on its range). -/
noncomputable def thetaOf (wave : WaveDesc) (radius : ℝ) : MatR :=
  fun i j =>
    Complex.arg ((wave.coordX i j / radius : ℝ) + (wave.coordY i j / radius : ℝ) * Complex.I)

/-- The array-symmetrisation performed by `KolmogorovWFE.rand_symmetrized`
on the freshly drawn Gaussian array `g` of shape `(npix, npix)`: the four
sequential slice assignments

    a[0, h+1:npix]        = sign * a[0, 1:h][::-1]
    a[h+1:npix, 0]        = sign * a[1:h, 0][::-1]
    a[h+1:npix, h+1:npix] = sign * rot90(a[1:h, 1:h], 2)
    a[h+1:npix, 1:h]      = sign * rot90(a[1:h, h+1:npix], 2)
    a[0, 0] = 0

with `h = npix // 2`.  Each target region is disjoint from every source
region, so every mirrored entry reads the original draw `g`; the written
entries are `sign * g (2h - i) (2h - j)` (with row/column 0 mirrored to
itself).  For even `npix`, `2h = npix` and this is exactly the Python
behaviour; for odd `npix` the Python slice assignment raises a shape
mismatch, so the theorems below assume `npix` even.  Note that row `h`,
column `h`, and the entries `a[0, h]`, `a[h, 0]` are never written. -/
def randSymmetrizedArr {α : Type} [Zero α] [Mul α]
    (g : ℕ → ℕ → α) (npix : ℕ) (sign : α) : ℕ → ℕ → α :=
  fun i j =>
    if i = 0 ∧ j = 0 then 0
    else if i = 0 ∧ npix / 2 + 1 ≤ j ∧ j < npix then
      sign * g 0 (2 * (npix / 2) - j)
    else if j = 0 ∧ npix / 2 + 1 ≤ i ∧ i < npix then
      sign * g (2 * (npix / 2) - i) 0
    else if npix / 2 + 1 ≤ i ∧ i < npix ∧ npix / 2 + 1 ≤ j ∧ j < npix then
      sign * g (2 * (npix / 2) - i) (2 * (npix / 2) - j)
    else if npix / 2 + 1 ≤ i ∧ i < npix ∧ 1 ≤ j ∧ j < npix / 2 then
      sign * g (2 * (npix / 2) - i) (2 * (npix / 2) - j)
    else g i j

/-- The raw Gaussian array drawn by one call of
`KolmogorovWFE.rand_symmetrized`: the method creates a fresh
`RandomState`, seeds it with `self.seed`, and draws `normal(size=(npix,
npix))`.  With a configured seed the draw is the same array on every
call; with `seed=None` it depends on the per-call entropy. -/
def randSymUnderlying (normal : ℕ → ℕ → ℕ → ℝ) (seed : Option ℕ) (entropy : ℕ) : MatR :=
  fun i j => normal (resolveSeed seed entropy) i j

/-- `KolmogorovWFE.rand_symmetrized(npix, sign)`: validates the sign, then
draws the Gaussian array (recorded as a `normalDraw` event) and applies
the mirror symmetrisation. -/
def randSymmetrizedT (normal : ℕ → ℕ → ℕ → ℝ) (seed : Option ℕ)
    (entropy npix : ℕ) (sign : ℤ) : List Event × Except Err MatR :=
  if sign.natAbs ≠ 1 then ([], .error .valueError)
  else
    ([.normalDraw npix],
      .ok (randSymmetrizedArr (randSymUnderlying normal seed entropy) npix ((sign : ℤ) : ℝ)))

/-- `KolmogorovWFE.rand_turbulent(npix)`:
`a = rand_symmetrized(npix, 1)`, `b = rand_symmetrized(npix, -1)`,
`c = (a + 1j*b)/sqrt(2)`.  Each of the two calls reseeds the generator
from `self.seed`; `e1`/`e2` are the per-call entropy values used only
when the seed is `None`. -/
noncomputable def randTurbulentT (normal : ℕ → ℕ → ℕ → ℝ) (seed : Option ℕ)
    (e1 e2 npix : ℕ) : List Event × Except Err MatC :=
  let r1 := randSymmetrizedT normal seed e1 npix 1
  match r1.2 with
  | .error er => (r1.1, .error er)
  | .ok a =>
    let r2 := randSymmetrizedT normal seed e2 npix (-1)
    match r2.2 with
    | .error er => (r1.1 ++ r2.1, .error er)
    | .ok b =>
      (r1.1 ++ r2.1,
        .ok (fun i j =>
          (((a i j : ℝ) : ℂ) + Complex.I * ((b i j : ℝ) : ℂ)) / ((Real.sqrt 2 : ℝ) : ℂ)))

/-- The summation loop of `ParameterizedWFE.get_opd`:

    for idx, coefficient in enumerate(self.coefficients):
        if coefficient == 0.0: continue
        combined_distortion += coefficient_in_m * computed_terms[idx]

`terms` is the sequence returned by the basis factory; accessing a
missing index raises `IndexError` (and the zero-coefficient `continue`
skips the access).  Coefficients are the coefficient values in metres. -/
def paramLoop (terms : List MatR) : List ℚ → ℕ → MatR → Except Err MatR
  | [], _, acc => .ok acc
  | c :: cs, idx, acc =>
    if c = 0 then paramLoop terms cs (idx + 1) acc
    else
      match terms.get? idx with
      | none => .error .indexError
      | some t => paramLoop terms cs (idx + 1) (fun i j => acc i j + (c : ℝ) * t i j)

/-- `ParameterizedWFE.get_opd(wave)`: argument guard from
`_check_wavefront_arg`, coordinate normalisation, basis-factory call
(the factory itself is an external collaborator, abstracted as
`factory nterms rho theta`; the `outside` argument is always `0.0`), and
the summation loop.  No validation of the radius or of the factory
output length is performed. -/
noncomputable def paramGetOpd (factory : ℕ → MatR → MatR → List MatR)
    (radius : ℝ) (cs : List ℚ) (wave : WaveDesc) : Except Err MatR :=
  if wave.isBaseWavefront then
    let rho := rhoOf wave radius
    let theta := thetaOf wave radius
    let terms := factory cs.length rho theta
    paramLoop terms cs 0 (fun _ _ => 0)
  else .error .valueError

/-- Configuration of `ZernikeWFE` (fields set by `__init__`). -/
structure ZernCfg where
  coefficients : List ℝ
  radius : ℝ
  aperture_stop : Bool

/-- The summation loop of `ZernikeWFE.get_opd`:
`for j, k in enumerate(self.coefficients, start=1): combined += k_in_m *
zernike_term(j)`, with the basis evaluation (cached or not) abstracted
as `zern j`. -/
def zernCombine (zern : ℕ → MatR) : List ℝ → ℕ → MatR → MatR
  | [], _, acc => acc
  | c :: cs, j, acc => zernCombine zern cs (j + 1) (fun x y => acc x y + c * zern j x y)

/-- `ZernikeWFE.get_opd(wave)`: argument guard, Zernike summation, then
`combined_zernikes[aperture_intensity == 0] = 0` with the aperture
transmission of the circular aperture (external collaborator `apTrans`). -/
noncomputable def zernikeGetOpd (zern : ℕ → MatR) (apTrans : WaveDesc → MatR)
    (cfg : ZernCfg) (wave : WaveDesc) : Except Err MatR :=
  if wave.isBaseWavefront then
    let aperture := apTrans wave
    let combined := zernCombine zern cfg.coefficients 1 (fun _ _ => 0)
    .ok (fun i j => if aperture i j = 0 then 0 else combined i j)
  else .error .valueError

/-- Configuration of `SineWaveWFE` (values in base units). -/
structure SineCfg where
  spatialfreq : ℝ
  amplitude : ℝ
  phaseoffset : ℝ

/-- `SineWaveWFE.get_opd(wave)`: argument guard, then
`amplitude * sin(2π(x·spatialfreq + phaseoffset))`. -/
noncomputable def sineGetOpd (cfg : SineCfg) (wave : WaveDesc) : Except Err MatR :=
  if wave.isBaseWavefront then
    .ok (fun i j =>
      cfg.amplitude *
        Real.sin (2 * Real.pi * (wave.coordX i j * cfg.spatialfreq + cfg.phaseoffset)))
  else .error .valueError

/-- Configuration of `StatisticalPSDWFE`, plus the `self.opd` cache field
written by `get_opd`. -/
structure StatCfg where
  index : ℝ
  wfe : ℝ
  radius : ℝ
  seed : Option ℕ
  opd : Option MatR

/-- The OPD array computed by `StatisticalPSDWFE.get_opd`: power-law PSD
on the pupil-normalised radial grid, Fourier transform of a fresh
Gaussian screen, PSD scaling, inverse transform, real part, zero-mean
forcing and normalisation of the standard deviation to the target RMS.
(`np.power(rho, -index)` at `rho = 0` is `inf` in numpy; `Real.rpow`
returns 0 there, a divergence confined to that single never-in-aperture
sample and irrelevant to the claims proved below.) -/
noncomputable def statOpd (normal : ℕ → ℕ → ℕ → ℝ) (cfg : StatCfg)
    (wave : WaveDesc) (entropy : ℕ) : MatR :=
  let n := wave.shape
  let rho := rhoOf wave cfg.radius
  let psd := fun i j => rho i j ^ (-cfg.index)
  let rndmPhase : MatC := fun i j => ((normal (resolveSeed cfg.seed entropy) i j : ℝ) : ℂ)
  let rndmPsd := fftshiftA n (fft2 n (fftshiftA n rndmPhase))
  let scaled : MatC := fun i j => ((Real.sqrt (psd i j) : ℝ) : ℂ) * rndmPsd i j
  let screen : MatR := fun i j => (ifftshiftA n (ifft2 n (ifftshiftA n scaled)) i j).re
  let centered : MatR := fun i j => screen i j - matMean n screen
  fun i j => centered i j / matStd n centered * cfg.wfe

/-- `StatisticalPSDWFE.get_opd(wave)`: argument guard, OPD computation,
write of the `self.opd` cache, and return of the array. -/
noncomputable def statGetOpd (normal : ℕ → ℕ → ℕ → ℝ) (cfg : StatCfg)
    (wave : WaveDesc) (entropy : ℕ) : StatCfg × Except Err MatR :=
  if wave.isBaseWavefront then
    let arr := statOpd normal cfg wave entropy
    ({ cfg with opd := some arr }, .ok arr)
  else (cfg, .error .valueError)

/-- One entry of `psd_parameters` of `PowerSpectrumWFE`:
`[alpha, beta, outer_scale, inner_scale, surf_roughness]`, values in the
base units implied by the docstring (the astropy unit bookkeeping and the
`assert` comparing unit objects live in the external units library and
are outside this embedding). -/
structure PSDTerm where
  alpha : ℝ
  beta : ℝ
  outer_scale : ℝ
  inner_scale : ℝ
  surf_roughness : ℝ

/-- Configuration of `PowerSpectrumWFE` (fields set by `__init__`), plus
the `self.opd` cache.  `screen_size` is an `Option` because `get_opd`
fills it in from the wavefront when it is `None`. -/
structure PSWConfig where
  psd_parameters : List PSDTerm
  psd_weight : List ℝ
  seed : Option ℕ
  apply_reflection : Bool
  screen_size : Option ℕ
  rms : Option ℝ
  incident_angle : ℝ
  radius : Option ℝ
  opd : Option MatR

/-- The spatial-frequency magnitude map of `PowerSpectrumWFE.get_opd`:
`maskY, maskX = np.mgrid[-cen:cen, -cen:cen]`, `k_map =
sqrt((maskX*dk)**2 + (maskY*dk)**2)` at (row, column) `(i, j)`. -/
noncomputable def pswK (cen : ℕ) (dk : ℝ) (i j : ℕ) : ℝ :=
  Real.sqrt ((((j : ℝ) - (cen : ℝ)) * dk) ^ 2 + (((i : ℝ) - (cen : ℝ)) * dk) ^ 2)

/-- One term `psd_interm` of the PSD sum of `PowerSpectrumWFE.get_opd`,
surface-roughness floor included.  For `outer_scale == 0` the code
temporarily overwrites `k_map[cen][cen]` with `1*dk` (so the division is
finite), evaluates the grid, then forces `psd_interm[cen][cen] = 0` and
restores `k_map`; the net effect is the centre-pixel case split below,
with all off-centre pixels using the original `k_map`.  The roughness
floor is added afterwards, to every pixel including the centre. -/
noncomputable def pswInterm (p : PSDTerm) (cen : ℕ) (dk : ℝ) : MatR :=
  fun i j =>
    (if p.outer_scale = 0 then
      if i = cen ∧ j = cen then 0
      else
        p.beta * Real.exp (-((pswK cen dk i j * p.inner_scale) ^ 2)) /
          ((pswK cen dk i j ^ 2) ^ (p.alpha / 2))
    else
      p.beta * Real.exp (-((pswK cen dk i j * p.inner_scale) ^ 2)) /
        ((p.outer_scale ^ (-2 : ℤ) + pswK cen dk i j ^ 2) ^ (p.alpha / 2)))
    + p.surf_roughness

/-- The PSD accumulation loop
`for n in range(len(self.psd_weight)): ... psd += psd_weight[n] *
psd_interm`; `psd_parameters[n]` raises `IndexError` when the weight
list is longer than the parameter list. -/
noncomputable def pswPsdLoop (params : List PSDTerm) (cen : ℕ) (dk : ℝ) :
    List ℝ → ℕ → MatR → Except Err MatR
  | [], _, acc => .ok acc
  | w :: ws, n, acc =>
    match params.get? n with
    | none => .error .indexError
    | some p =>
      pswPsdLoop params cen dk ws (n + 1)
        (fun i j => acc i j + w * pswInterm p cen dk i j)

/-- The calibration tail of `PowerSpectrumWFE.get_opd` (source lines
559-581), applied to the raw synthesised OPD array `opd0` of shape
`s`-by-`s`: optional RMS forcing measured inside the circular aperture on
the wavefront-shaped grid, incident-angle foreshortening, reflection
doubling, and the final crop to the wavefront shape when the screen is
larger.  `apMask cfg.radius wave` is the external
`CircularAperture(radius).get_transmission(wave) == True` pixel mask. -/
noncomputable def pswCalibrate (apMask : Option ℝ → WaveDesc → ℕ → ℕ → Bool)
    (cfg : PSWConfig) (wave : WaveDesc) (s : ℕ) (opd0 : MatR) : MatR :=
  let opd1 :=
    match cfg.rms with
    | none => opd0
    | some t =>
      let ap := apMask cfg.radius wave
      let opdCrop := padOrCrop wave.shape s opd0
      let rmsMeasure := rmsOver wave.shape ap opdCrop
      fun i j => opd0 i j * (t / rmsMeasure)
  let opd2 :=
    if cfg.incident_angle ≠ 0 then
      fun i j => opd1 i j / Real.cos cfg.incident_angle
    else opd1
  let opd3 :=
    if cfg.apply_reflection = true then fun i j => opd2 i j * 2 else opd2
  if wave.shape < s then padOrCrop wave.shape s opd3 else opd3

/-- The synthesis stage of `PowerSpectrumWFE.get_opd`: Gaussian draw of
shape `(s, s)`, `rndm_noise = fftshift(fft2(draw))`,
`psd_scaled = sqrt(psd/pixelscale**2) * rndm_noise`,
`opd = ifft2(ifftshift(psd_scaled)).real` (the `surf_unit`-to-metre
conversion factor is 1 in base units), followed by the calibration tail. -/
noncomputable def pswSynth (normal : ℕ → ℕ → ℕ → ℝ)
    (apMask : Option ℝ → WaveDesc → ℕ → ℕ → Bool) (cfg : PSWConfig)
    (wave : WaveDesc) (entropy : ℕ) (s : ℕ) (psdM : MatR) : MatR :=
  let rndmNoise :=
    fftshiftA s (fft2 s (fun x y => ((normal (resolveSeed cfg.seed entropy) x y : ℝ) : ℂ)))
  let psdScaled : MatC := fun i j =>
    ((Real.sqrt (psdM i j / wave.pixelscale ^ 2) : ℝ) : ℂ) * rndmNoise i j
  let opd0 : MatR := fun i j => (ifft2 s (ifftshiftA s psdScaled) i j).re
  pswCalibrate apMask cfg wave s opd0

/-- Body of `PowerSpectrumWFE.get_opd` once the screen size `s` has been
resolved and possibly written back into the configuration (`cfg` is the
post-write configuration): PSD evaluation, synthesis, calibration, and
the write of the `self.opd` cache.  When the PSD loop raises, the
(already mutated) configuration is returned with the error, as in
Python. -/
noncomputable def pswBody (normal : ℕ → ℕ → ℕ → ℝ)
    (apMask : Option ℝ → WaveDesc → ℕ → ℕ → Bool) (cfg : PSWConfig)
    (wave : WaveDesc) (entropy : ℕ) (s : ℕ) : PSWConfig × Except Err MatR :=
  let dk := 1 / ((s : ℝ) * wave.pixelscale)
  let cen := s / 2
  match pswPsdLoop cfg.psd_parameters cen dk cfg.psd_weight 0 (fun _ _ => 0) with
  | .error er => (cfg, .error er)
  | .ok psdM =>
    let arr := pswSynth normal apMask cfg wave entropy s psdM
    ({ cfg with opd := some arr }, .ok arr)

/-- `PowerSpectrumWFE.get_opd(wave)`: argument guard, computation of the
true (unpadded) wavefront size, resolution of `screen_size` — which
WRITES `self.screen_size` when it was `None` (default `4x` the wavefront
side for unpadded wavefronts) and raises when an explicitly configured
screen is smaller than the unpadded wavefront — then the PSD/synthesis
body. -/
noncomputable def pswGetOpd (normal : ℕ → ℕ → ℕ → ℝ)
    (apMask : Option ℝ → WaveDesc → ℕ → ℕ → Bool) (cfg : PSWConfig)
    (wave : WaveDesc) (entropy : ℕ) : PSWConfig × Except Err MatR :=
  if wave.isBaseWavefront then
    let waveSize := if wave.ispadded then wave.shape / wave.oversample else wave.shape
    match cfg.screen_size with
    | none =>
      let s := if wave.ispadded then wave.shape else wave.shape * 4
      pswBody normal apMask { cfg with screen_size := some s } wave entropy s
    | some s =>
      if s < waveSize then (cfg, .error .exception)
      else pswBody normal apMask cfg wave entropy s
  else (cfg, .error .valueError)

/-- Configuration of `KolmogorovWFE` (fields set by `__init__`), plus the
`self.opd` cache.  `dz` is plain (not optional) because every
successfully constructed instance has executed `self.dz = dz.to(u.m)`. -/
structure KolCfg where
  r0 : Option ℝ
  Cn2 : Option ℝ
  dz : ℝ
  inner_scale : Option ℝ
  outer_scale : Option ℝ
  kind : String
  seed : Option ℕ
  opd : Option MatR

/-- `KolmogorovWFE.__init__`: raises `ValueError` when
`dz is None and not all(item is not None for item in [r0, Cn2])`
(that is, only when `dz` is missing AND at least one of `r0`, `Cn2` is
missing); otherwise proceeds, and `self.dz = dz.to(u.m)` raises
`AttributeError` when `dz` is `None`.  In particular `dz` supplied with
both `r0` and `Cn2` missing constructs successfully. -/
def kolmogorovInit (r0 Cn2 dz inner_scale outer_scale : Option ℝ)
    (kind : String) (seed : Option ℕ) : Except Err KolCfg :=
  if dz.isNone && !(r0.isSome && Cn2.isSome) then .error .valueError
  else
    match dz with
    | none => .error .attributeError
    | some d =>
      .ok { r0 := r0, Cn2 := Cn2, dz := d, inner_scale := inner_scale,
            outer_scale := outer_scale, kind := kind, seed := seed, opd := none }

/-- `KolmogorovWFE.get_Cn2(wavelength)`: derived from `r0` and `dz` when
`r0` is set (`dz` always is after construction), else the directly
supplied `Cn2`, else `None` (the Python function falls off its end). -/
noncomputable def kolGetCn2 (cfg : KolCfg) (wavelength : ℝ) : Option ℝ :=
  match cfg.r0 with
  | some r0 => some (wavelength ^ 2 / cfg.dz * (r0 / 0.185) ^ (-(5 : ℝ) / 3))
  | none => cfg.Cn2

/-- The Hill-spectrum quartic correction factor
`(1 + 0.70937 m + 2.8235 m² − 0.28086 m³ + 0.08277 m⁴)·exp(−1.109 m)`. -/
noncomputable def hillFactor (m : ℝ) : ℝ :=
  (1 + 0.70937 * m + 2.8235 * m ^ 2 - 0.28086 * m ^ 3 + 0.08277 * m ^ 4) *
    Real.exp (-1.109 * m)

/-- `KolmogorovWFE.power_spectrum(wave, kind)`.  Steps, in source order:
kind validation; `Cn2 = get_Cn2(wavelength)` (no error even when it
resolves to `None`); angular-frequency grid `q = fftfreq(npix,
pixelscale)·2π`, `q2 = qx² + qy²`; for `kind == 'von Karman'` add
`1/outer_scale²` or raise `ValueError` when the outer scale is missing;
`q2[0,0] = inf` so that `phi = 0.0330054·Cn2·q2^(-11/6)` is 0 at the
origin (modelled by the origin case split) — at this multiplication a
`None` `Cn2` raises `TypeError`; finally the inner-scale factor for
Tatarski / von Karman / Hill, raising `ValueError` when the inner scale
is missing for those kinds. -/
noncomputable def kolPowerSpectrum (cfg : KolCfg) (wave : WaveDesc) : Except Err MatR :=
  if ¬(cfg.kind = "Kolmogorov" ∨ cfg.kind = "Tatarski" ∨
      cfg.kind = "von Karman" ∨ cfg.kind = "Hill") then .error .valueError
  else
    let Cn2opt := kolGetCn2 cfg wave.wavelength
    let npix := wave.shape
    let q := fun i : ℕ => fftfreqVal npix wave.pixelscale i * (2 * Real.pi)
    let k2 := fun i j : ℕ => q j ^ 2 + q i ^ 2
    if cfg.kind = "von Karman" ∧ cfg.outer_scale.isNone then .error .valueError
    else
      let q2 := fun i j : ℕ =>
        k2 i j +
          (if cfg.kind = "von Karman" then
            match cfg.outer_scale with
            | some L0 => 1 / L0 ^ 2
            | none => 0
          else 0)
      match Cn2opt with
      | none => .error .typeError
      | some c =>
        let phi : MatR := fun i j =>
          if i = 0 ∧ j = 0 then 0
          else 0.0330054 * c * q2 i j ^ (-(11 : ℝ) / 6)
        if cfg.kind = "Tatarski" ∨ cfg.kind = "von Karman" ∨ cfg.kind = "Hill" then
          match cfg.inner_scale with
          | none => .error .valueError
          | some l0 =>
            if cfg.kind = "Hill" then
              .ok (fun i j => phi i j * hillFactor (Real.sqrt (k2 i j) * l0))
            else
              .ok (fun i j => phi i j * Real.exp (-k2 i j / (5.92 / l0) ^ 2))
        else .ok phi

/-- `KolmogorovWFE.get_opd(wave)` — note: NOT decorated with
`_check_wavefront_arg`, so there is no wavefront-type guard.  Source
order: `a = rand_turbulent(npix)` (the two Gaussian draws), then
`phi = power_spectrum(wave, kind)` (where the configuration errors are
raised), then `opd_FFT = dq·a·sqrt(2π·dz·phi)` and
`opd = (npix²·ifft2(opd_FFT)).real`, cached in `self.opd`.  The result
carries the trace of `normalDraw` events next to the updated
configuration and the value. -/
noncomputable def kolGetOpd (normal : ℕ → ℕ → ℕ → ℝ) (cfg : KolCfg)
    (wave : WaveDesc) (e1 e2 : ℕ) : List Event × (KolCfg × Except Err MatR) :=
  let npix := wave.shape
  let dq := 2 * Real.pi / (npix : ℝ) / wave.pixelscale
  let r := randTurbulentT normal cfg.seed e1 e2 npix
  match r.2 with
  | .error er => (r.1, (cfg, .error er))
  | .ok a =>
    match kolPowerSpectrum cfg wave with
    | .error er => (r.1, (cfg, .error er))
    | .ok phi =>
      let opdFFT : MatC := fun i j =>
        ((dq : ℝ) : ℂ) * a i j * ((Real.sqrt (2 * Real.pi * cfg.dz * phi i j) : ℝ) : ℂ)
      let opd : MatR := fun i j => (((npix : ℂ) ^ 2) * ifft2 npix opdFFT i j).re
      (r.1, ({ cfg with opd := some opd }, .ok opd))

/-! ### Concrete instances used by the closed theorems below -/

/-- A concrete stand-in for the seeded Gaussian generator, non-constant in
the seed and in both indices. -/
noncomputable def normal0 : ℕ → ℕ → ℕ → ℝ :=
  fun s i j => (s : ℝ) + 2 * (i : ℝ) + 3 * (j : ℝ)

/-- A concrete aperture mask: every pixel inside the aperture. -/
def apMask0 : Option ℝ → WaveDesc → ℕ → ℕ → Bool := fun _ _ _ _ => true

/-- A concrete 4-by-4 unpadded wavefront descriptor. -/
noncomputable def wave4 : WaveDesc :=
  { shape := 4, pixelscale := 1, ispadded := false, oversample := 1,
    wavelength := 1, isBaseWavefront := true,
    coordY := fun i _ => (i : ℝ), coordX := fun _ j => (j : ℝ) }

/-- A concrete 1-by-1 wavefront descriptor. -/
noncomputable def wave1 : WaveDesc :=
  { shape := 1, pixelscale := 1, ispadded := false, oversample := 1,
    wavelength := 1, isBaseWavefront := true,
    coordY := fun i _ => (i : ℝ), coordX := fun _ j => (j : ℝ) }

/-- A concrete argument that is NOT a `BaseWavefront` instance. -/
noncomputable def waveNotWF : WaveDesc :=
  { shape := 4, pixelscale := 1, ispadded := false, oversample := 1,
    wavelength := 1, isBaseWavefront := false,
    coordY := fun i _ => (i : ℝ), coordX := fun _ j => (j : ℝ) }

/-- A concrete rational 4-by-4 "raw Gaussian draw" with pairwise distinct
entries, standing for the seeded `normal(size=(4, 4))` output. -/
def c1gCE : ℕ → ℕ → ℚ := fun i j => ((10 * i + j : ℕ) : ℚ)

/-- A `KolmogorovWFE` configuration with `kind='von Karman'` and no outer
scale (and a fixed seed), as built by
`KolmogorovWFE(r0=1*u.m, dz=1*u.m, inner_scale=1*u.m, kind='von Karman',
seed=0)`. -/
def c2cfgVK : KolCfg :=
  { r0 := some 1, Cn2 := none, dz := 1, inner_scale := some 1,
    outer_scale := none, kind := "von Karman", seed := some 0, opd := none }

/-- A `PowerSpectrumWFE` configuration with a forced RMS of 2 m, normal
incidence and no reflection doubling. -/
def c3cfg : PSWConfig :=
  { psd_parameters := [⟨2, 0, 1, 0, 1⟩], psd_weight := [1], seed := some 0,
    apply_reflection := false, screen_size := some 1, rms := some 2,
    incident_angle := 0, radius := some 1, opd := none }

/-- A raw synthesised OPD array, constant 1. -/
noncomputable def c3opd : MatR := fun _ _ => 1

/-- A `PowerSpectrumWFE` configuration with `screen_size=None` (the
constructor default). -/
def c5cfgNone : PSWConfig :=
  { psd_parameters := [⟨2, 0, 1, 0, 1⟩], psd_weight := [1], seed := some 0,
    apply_reflection := false, screen_size := none, rms := none,
    incident_angle := 0, radius := none, opd := none }

/-- A `PowerSpectrumWFE` configuration with an explicit `screen_size=8`
and a fixed seed. -/
def c5cfgSome : PSWConfig :=
  { psd_parameters := [⟨2, 0, 1, 0, 1⟩], psd_weight := [1], seed := some 0,
    apply_reflection := false, screen_size := some 8, rms := none,
    incident_angle := 0, radius := none, opd := none }

/-- A `PowerSpectrumWFE` configuration with a fixed seed used for the
determinism witness. -/
def c6pswCfg : PSWConfig :=
  { psd_parameters := [⟨2, 0, 1, 0, 1⟩], psd_weight := [1], seed := some 2,
    apply_reflection := false, screen_size := none, rms := none,
    incident_angle := 0, radius := none, opd := none }

/-- A `StatisticalPSDWFE` configuration with a fixed seed
(`StatisticalPSDWFE(index=3, wfe=50e-9, radius=1, seed=7)`). -/
def c6statCfg : StatCfg :=
  { index := 3, wfe := 50e-9, radius := 1, seed := some 7, opd := none }

/-- A `KolmogorovWFE` configuration of kind `'Kolmogorov'` with a fixed
seed. -/
def c6kolCfg : KolCfg :=
  { r0 := some 1, Cn2 := none, dz := 1, inner_scale := none,
    outer_scale := none, kind := "Kolmogorov", seed := some 5, opd := none }

/-- A PSD term with `outer_scale == 0` and a non-zero surface-roughness
floor. -/
def c7term : PSDTerm := ⟨2, 5, 0, 0, 1⟩

/-- A concrete basis factory returning two basis arrays regardless of the
requested number of terms. -/
noncomputable def c9factory : ℕ → MatR → MatR → List MatR :=
  fun _ _ _ => [fun _ _ => 1, fun _ _ => 2]

/-- A concrete `ZernikeWFE` configuration. -/
def c10zernCfg : ZernCfg := { coefficients := [1], radius := 1, aperture_stop := false }

/-- A concrete `SineWaveWFE` configuration. -/
def c10sineCfg : SineCfg := { spatialfreq := 1, amplitude := 1, phaseoffset := 0 }

/-- A concrete Zernike basis collaborator. -/
noncomputable def c10zern : ℕ → MatR := fun _ _ _ => 1

/-- A concrete aperture-transmission collaborator. -/
noncomputable def c10apTrans : WaveDesc → MatR := fun _ _ _ => 1

/-! ### Helper lemmas -/

/-- Entries with `1 ≤ i ≤ npix/2` and `1 ≤ j` are never written by the
four slice assignments of `rand_symmetrized`: they keep the raw draw. -/
theorem randSymmetrizedArr_untouched {α : Type} [Zero α] [Mul α]
    (g : ℕ → ℕ → α) (npix : ℕ) (s : α) (i j : ℕ)
    (h1 : 1 ≤ i) (h2 : i ≤ npix / 2) (h3 : 1 ≤ j) :
    randSymmetrizedArr g npix s i j = g i j := by
  unfold randSymmetrizedArr
  split_ifs with hA hB hC hD hE <;> first | rfl | (exfalso; omega)

/-- Entries in the fourth quadrant `npix/2+1 ≤ i, j < npix` hold the
mirrored value `s * g (2(npix/2) - i) (2(npix/2) - j)`. -/
theorem randSymmetrizedArr_q4 {α : Type} [Zero α] [Mul α]
    (g : ℕ → ℕ → α) (npix : ℕ) (s : α) (i j : ℕ)
    (h1 : npix / 2 + 1 ≤ i) (h2 : i < npix) (h3 : npix / 2 + 1 ≤ j) (h4 : j < npix) :
    randSymmetrizedArr g npix s i j = s * g (2 * (npix / 2) - i) (2 * (npix / 2) - j) := by
  unfold randSymmetrizedArr
  split_ifs with hA hB hC hD hE <;> first | rfl | (exfalso; omega)

/-- Entries in the third quadrant `npix/2+1 ≤ i < npix`, `1 ≤ j < npix/2`
also hold the mirrored value. -/
theorem randSymmetrizedArr_q3 {α : Type} [Zero α] [Mul α]
    (g : ℕ → ℕ → α) (npix : ℕ) (s : α) (i j : ℕ)
    (h1 : npix / 2 + 1 ≤ i) (h2 : i < npix) (h3 : 1 ≤ j) (h4 : j < npix / 2) :
    randSymmetrizedArr g npix s i j = s * g (2 * (npix / 2) - i) (2 * (npix / 2) - j) := by
  unfold randSymmetrizedArr
  split_ifs with hA hB hC hD hE <;> first | rfl | (exfalso; omega)

/-! ### C1 -/

/-- C1 (counterexample): the claimed mirror symmetry
`a[N-i, N-j] == s·a[i, j]` fails on the code for index pairs on the
Nyquist row `i = N/2`: with `N = 4`, `s = +1` and the concrete raw draw
`c1gCE`, the returned array has `a[4-2, 4-1] = a[2, 3] = 23` but
`s·a[2, 1] = 21`, because `rand_symmetrized` never writes row `N/2`
(nor column `N/2`). -/
theorem c1_counterexample :
    ¬ (randSymmetrizedArr c1gCE 4 (1 : ℚ) (4 - 2) (4 - 1) =
        1 * randSymmetrizedArr c1gCE 4 (1 : ℚ) 2 1) := by
  norm_num [randSymmetrizedArr, c1gCE]

/-- C1 (amended): for the symmetrised array `a` returned by
`KolmogorovWFE.rand_symmetrized` with even `npix = N` and sign
`s ∈ {+1, -1}`, the mirror relation `a[N-i, N-j] = s·a[i, j]` holds for
every index pair with `1 ≤ i, j ≤ N-1` and `i ≠ N/2 ≠ j` (the Nyquist
row `N/2` and column `N/2` are left unsymmetrised by the code), and
`a[0, 0]` is exactly 0. -/
theorem c1_amended (g : ℕ → ℕ → ℚ) (npix i j : ℕ) (s : ℚ)
    (hN : npix % 2 = 0) (hs : s = 1 ∨ s = -1)
    (hi1 : 1 ≤ i) (hi2 : i < npix) (hj1 : 1 ≤ j) (hj2 : j < npix)
    (hih : i ≠ npix / 2) (hjh : j ≠ npix / 2) :
    randSymmetrizedArr g npix s (npix - i) (npix - j) =
      s * randSymmetrizedArr g npix s i j ∧
    randSymmetrizedArr g npix s 0 0 = 0 := by
  have h2 : 2 * (npix / 2) = npix := by omega
  have hss : s * s = 1 := by rcases hs with rfl | rfl <;> norm_num
  constructor
  · rcases Nat.lt_or_ge i (npix / 2) with hi | hi <;>
      rcases Nat.lt_or_ge j (npix / 2) with hj | hj
    · -- i < N/2, j < N/2 : target entry was untouched, mirror is in Q4
      rw [randSymmetrizedArr_q4 g npix s _ _ (by omega) (by omega) (by omega) (by omega),
        randSymmetrizedArr_untouched g npix s i j hi1 (by omega) hj1, h2,
        Nat.sub_sub_self hi2.le, Nat.sub_sub_self hj2.le]
    · -- i < N/2, j > N/2 : mirror is in Q3
      have hj' : npix / 2 < j := by omega
      rw [randSymmetrizedArr_q3 g npix s _ _ (by omega) (by omega) (by omega) (by omega),
        randSymmetrizedArr_untouched g npix s i j hi1 (by omega) hj1, h2,
        Nat.sub_sub_self hi2.le, Nat.sub_sub_self hj2.le]
    · -- i > N/2, j < N/2 : source entry is in Q3, mirror untouched
      have hi' : npix / 2 < i := by omega
      rw [randSymmetrizedArr_untouched g npix s _ _ (by omega) (by omega) (by omega),
        randSymmetrizedArr_q3 g npix s i j (by omega) hi2 hj1 (by omega), h2,
        ← mul_assoc, hss, one_mul]
    · -- i > N/2, j > N/2 : source entry is in Q4, mirror untouched
      have hi' : npix / 2 < i := by omega
      have hj' : npix / 2 < j := by omega
      rw [randSymmetrizedArr_untouched g npix s _ _ (by omega) (by omega) (by omega),
        randSymmetrizedArr_q4 g npix s i j (by omega) hi2 (by omega) hj2, h2,
        ← mul_assoc, hss, one_mul]
  · unfold randSymmetrizedArr
    rw [if_pos ⟨rfl, rfl⟩]

/-- C1 (witness): the amended theorem applied at `npix = 4`, `s = +1`,
`(i, j) = (1, 1)` with the concrete draw `c1gCE`; every hypothesis is
discharged by computation. -/
theorem c1_witness :
    (4 % 2 = 0) ∧ ((1 : ℚ) = 1 ∨ (1 : ℚ) = -1) ∧ (1 ≤ 1) ∧ (1 < 4) ∧
      (1 ≠ 4 / 2) ∧
      (randSymmetrizedArr c1gCE 4 (1 : ℚ) (4 - 1) (4 - 1) =
          1 * randSymmetrizedArr c1gCE 4 (1 : ℚ) 1 1 ∧
        randSymmetrizedArr c1gCE 4 (1 : ℚ) 0 0 = 0) :=
  ⟨by decide, Or.inl rfl, by decide, by decide, by decide,
    c1_amended c1gCE 4 1 1 1 (by decide) (Or.inl rfl) (by decide) (by decide)
      (by decide) (by decide) (by decide) (by decide)⟩

/-! ### C4 -/

/-- C4 (code bug evaluation): `KolmogorovWFE.__init__` checks
`dz is None and not all(item is not None for item in [r0, Cn2])`, which
contradicts its own error message
"dz and either Cn2 or r0 must be given": (1) with `dz` supplied and both
`r0` and `Cn2` missing, construction SUCCEEDS (the failure is deferred to
the first `get_opd`, where the unresolvable `Cn2` raises); (2) with `dz`
missing and `r0`/`Cn2` not both present, the intended `ValueError` is
raised; (3) with `dz` missing but both `r0` and `Cn2` present, the guard
is skipped and `dz.to(u.m)` raises `AttributeError` instead. -/
theorem c4_code_bug :
    exceptOk (kolmogorovInit none none (some 1) none none "Kolmogorov" none) = true ∧
    kolmogorovInit none none none none none "Kolmogorov" none = .error .valueError ∧
    kolmogorovInit (some 1) (some 1) none none none "Kolmogorov" none =
      .error .attributeError := by
  refine ⟨rfl, rfl, rfl⟩

/-! ### C7 -/

/-- C7 (counterexample): for a PSD term with `outer_scale == 0`, a
surface-roughness floor of 1 and weight 1, the term's contribution to the
total PSD at the zero-frequency sample `(cen, cen)` is `0 + 1 = 1`, not 0:
the code forces the beta/denominator part to 0 at `k = 0` but adds the
roughness floor afterwards. -/
theorem c7_counterexample :
    ¬ ((1 : ℝ) * pswInterm c7term 1 1 1 1 = 0) := by
  unfold pswInterm c7term
  norm_num

/-- C7 (amended): in the multi-term PSD evaluation of
`PowerSpectrumWFE.get_opd`, for a term with `outer_scale == 0` the k=0
sample of `k_map` is temporarily replaced (avoiding the division by zero)
and the beta/denominator part of the PSD is forced to 0 at k=0 BEFORE the
surface-roughness floor is added, so the term's contribution
(weight × `psd_interm`) at zero spatial frequency equals
`weight × surf_roughness` — which is 0 only when the roughness floor is 0. -/
theorem c7_amended (p : PSDTerm) (w : ℝ) (cen : ℕ) (dk : ℝ)
    (hout : p.outer_scale = 0) :
    w * pswInterm p cen dk cen cen = w * p.surf_roughness := by
  unfold pswInterm
  rw [if_pos hout, if_pos ⟨rfl, rfl⟩, zero_add]

/-- C7 (witness): the amended theorem at the concrete term `c7term`
(weight 1, `cen = 1`, `dk = 1`); the contribution is the roughness floor 1. -/
theorem c7_witness :
    c7term.outer_scale = 0 ∧
      (1 : ℝ) * pswInterm c7term 1 1 1 1 = 1 * c7term.surf_roughness :=
  ⟨rfl, c7_amended c7term 1 1 1 rfl⟩

/-! ### C8 -/

/-- Evaluation of `rand_turbulent`: the sign checks of the two
`rand_symmetrized` calls pass, both Gaussian draws are recorded, and the
complex field is `(a + i·b)/√2`. -/
theorem randTurbulentT_eq (normal : ℕ → ℕ → ℕ → ℝ) (seed : Option ℕ)
    (e1 e2 npix : ℕ) :
    randTurbulentT normal seed e1 e2 npix =
      ([Event.normalDraw npix, Event.normalDraw npix],
        .ok (fun i j =>
          ((randSymmetrizedArr (randSymUnderlying normal seed e1) npix
              (((1 : ℤ) : ℝ)) i j : ℝ) +
            Complex.I * ((randSymmetrizedArr (randSymUnderlying normal seed e2) npix
              (((-1 : ℤ) : ℝ)) i j : ℝ)))
          / ((Real.sqrt 2 : ℝ) : ℂ))) :=
  rfl

/-- C8 (counterexample): the claim asserts that with a fixed seed the two
symmetrised draws `a` and `b` of `rand_turbulent` are NOT produced from
the identical underlying Gaussian sample array; in fact each
`rand_symmetrized` call reseeds its freshly created generator from
`self.seed`, so with `seed = 5` the two raw draws are the same array even
though the per-call entropy differs. -/
theorem c8_counterexample :
    randSymUnderlying normal0 (some 5) 0 = randSymUnderlying normal0 (some 5) 1 :=
  rfl

/-- C8 (amended): `KolmogorovWFE.rand_turbulent` forms its complex random
field as `(a + i·b)/√2` from a draw `a` symmetrised with sign +1 and a
draw `b` symmetrised with sign −1; however, when a fixed seed `k` is
configured, `a` and `b` are both produced from the IDENTICAL underlying
Gaussian sample array `normal k` (the generator is reseeded from the
configured seed inside each `rand_symmetrized` call). -/
theorem c8_amended (normal : ℕ → ℕ → ℕ → ℝ) (seed : Option ℕ) (k e1 e2 npix : ℕ)
    (h : seed = some k) :
    randTurbulentT normal seed e1 e2 npix =
      ([Event.normalDraw npix, Event.normalDraw npix],
        .ok (fun i j =>
          ((randSymmetrizedArr (normal k) npix (1 : ℝ) i j : ℝ) +
            Complex.I * ((randSymmetrizedArr (normal k) npix (-1 : ℝ) i j : ℝ)))
          / ((Real.sqrt 2 : ℝ) : ℂ))) := by
  subst h
  rw [randTurbulentT_eq]
  norm_num [randSymUnderlying, resolveSeed]
  rfl

/-- C8 (witness): the amended theorem at seed 3 with the concrete
generator `normal0`. -/
theorem c8_witness :
    (some 3 : Option ℕ) = some 3 ∧
      randTurbulentT normal0 (some 3) 0 1 4 =
        ([Event.normalDraw 4, Event.normalDraw 4],
          .ok (fun i j =>
            ((randSymmetrizedArr (normal0 3) 4 (1 : ℝ) i j : ℝ) +
              Complex.I * ((randSymmetrizedArr (normal0 3) 4 (-1 : ℝ) i j : ℝ)))
            / ((Real.sqrt 2 : ℝ) : ℂ))) :=
  ⟨rfl, c8_amended normal0 (some 3) 3 0 1 4 rfl⟩

/-! ### C9 -/

/-- The summation loop of `ParameterizedWFE.get_opd` succeeds exactly when
every index carrying a non-zero coefficient is within the basis-term
list (offset by the starting index); zero coefficients skip the access. -/
theorem paramLoop_ok_iff (terms : List MatR) (cs : List ℚ) (idx : ℕ) (acc : MatR) :
    exceptOk (paramLoop terms cs idx acc) = true ↔
      ∀ n (hn : n < cs.length), cs.get ⟨n, hn⟩ ≠ 0 → idx + n < terms.length := by
  induction cs generalizing idx acc with
  | nil => simp [paramLoop, exceptOk]
  | cons c cs ih =>
    by_cases hc : c = 0
    · rw [paramLoop, if_pos hc]
      rw [ih]
      constructor
      · intro h n hn hne
        match n, hn with
        | 0, hn => exact absurd (by simpa using hne) (by simp [hc])
        | n + 1, hn =>
          have := h n (by simpa using hn) (by simpa using hne)
          omega
      · intro h n hn hne
        have := h (n + 1) (by simpa using hn) (by simpa using hne)
        omega
    · rw [paramLoop, if_neg hc]
      rcases ht : terms.get? idx with _ | t
      · have hlen : terms.length ≤ idx := List.get?_eq_none.mp ht
        simp only [exceptOk]
        constructor
        · intro h; cases h
        · intro h
          have := h 0 (by simp) (by simpa using hc)
          omega
      · have hlen : idx < terms.length := (List.get?_eq_some.mp ht).1
        rw [ih]
        constructor
        · intro h n hn hne
          match n, hn with
          | 0, hn => simpa using hlen
          | n + 1, hn =>
            have := h n (by simpa using hn) (by simpa using hne)
            omega
        · intro h n hn hne
          have := h (n + 1) (by simpa using hn) (by simpa using hne)
          omega

/-- C9 (counterexample): `ParameterizedWFE` performs no validation of the
coefficient/basis-term counts or of the normalization radius: with one
coefficient, a basis factory producing TWO term arrays, and the
non-positive radius −1, `get_opd` succeeds (no error is raised at
construction or at `get_opd`), contradicting the claim. -/
theorem c9_counterexample :
    exceptOk (paramGetOpd c9factory (-1) [1] wave4) = true :=
  rfl

/-- C9 (amended): `ParameterizedWFE` has no explicit validation; on a
wavefront argument, `get_opd` succeeds if and only if every index with a
non-zero coefficient is within the basis factory output list — a factory
returning fewer terms than there are non-zero-coefficient indices fails
incidentally with `IndexError` at `computed_terms[idx]`, while surplus
basis terms and non-positive normalization radii are accepted silently. -/
theorem c9_amended (factory : ℕ → MatR → MatR → List MatR) (radius : ℝ)
    (cs : List ℚ) (wave : WaveDesc) (hw : wave.isBaseWavefront = true) :
    exceptOk (paramGetOpd factory radius cs wave) = true ↔
      ∀ n (hn : n < cs.length), cs.get ⟨n, hn⟩ ≠ 0 →
        n < (factory cs.length (rhoOf wave radius) (thetaOf wave radius)).length := by
  unfold paramGetOpd
  rw [if_pos (by simp [hw])]
  rw [paramLoop_ok_iff]
  simp

/-- C9 (witness): the amended theorem at the concrete factory returning
two terms, radius −1, coefficient list `[1]` and the 4-by-4 wavefront:
the call succeeds and indeed every non-zero coefficient index is in
range. -/
theorem c9_witness :
    wave4.isBaseWavefront = true ∧
      (exceptOk (paramGetOpd c9factory (-1) [1] wave4) = true ↔
        ∀ n (hn : n < ([1] : List ℚ).length), ([1] : List ℚ).get ⟨n, hn⟩ ≠ 0 →
          n < (c9factory ([1] : List ℚ).length (rhoOf wave4 (-1))
                (thetaOf wave4 (-1))).length) :=
  ⟨rfl, c9_amended c9factory (-1) [1] wave4 rfl⟩

/-! ### C2 -/

/-- `power_spectrum` raises the von-Karman configuration `ValueError`
when the outer scale is missing. -/
theorem kolPowerSpectrum_vonKarman_no_outer (cfg : KolCfg) (wave : WaveDesc)
    (hk : cfg.kind = "von Karman") (ho : cfg.outer_scale = none) :
    kolPowerSpectrum cfg wave = .error .valueError := by
  unfold kolPowerSpectrum
  rw [if_neg (fun hcon => hcon (Or.inr (Or.inr (Or.inl hk))))]
  dsimp only
  rw [if_pos ⟨hk, by rw [ho]; rfl⟩]

/-- C2 (counterexample): calling `KolmogorovWFE.get_opd` on the concrete
von-Karman configuration without an outer scale raises the configuration
`ValueError`, but the Gaussian random draws are NOT avoided: the trace of
`normal(size=(npix, npix))` draws made before the error is non-empty
(`rand_turbulent` runs before `power_spectrum`). -/
theorem c2_counterexample :
    (kolGetOpd normal0 c2cfgVK wave4 0 0).1 ≠ [] ∧
    (kolGetOpd normal0 c2cfgVK wave4 0 0).2.2 = .error .valueError := by
  have hps : kolPowerSpectrum c2cfgVK wave4 = .error .valueError := by
    unfold kolPowerSpectrum
    rw [if_neg (by decide)]
    dsimp only
    rw [if_pos (by exact ⟨rfl, rfl⟩)]
  have hmain : kolGetOpd normal0 c2cfgVK wave4 0 0 =
      ([Event.normalDraw wave4.shape, Event.normalDraw wave4.shape],
        (c2cfgVK, Except.error Err.valueError)) := by
    simp only [kolGetOpd, randTurbulentT_eq, hps]
  rw [hmain]
  exact ⟨by simp, rfl⟩

/-- C2 (amended): `KolmogorovWFE.get_opd` with kind `'von Karman'` and
`outer_scale=None` does fail with the configuration `ValueError`, but
only AFTER the Gaussian random draws: `get_opd` calls `rand_turbulent`
(two `npix`-by-`npix` Gaussian draws) before `power_spectrum`, where the
error is raised; the returned trace is exactly the two draws followed by
the error, and the configuration is unchanged. -/
theorem c2_amended (normal : ℕ → ℕ → ℕ → ℝ) (cfg : KolCfg) (wave : WaveDesc)
    (e1 e2 : ℕ) (hk : cfg.kind = "von Karman") (ho : cfg.outer_scale = none) :
    kolGetOpd normal cfg wave e1 e2 =
      ([Event.normalDraw wave.shape, Event.normalDraw wave.shape],
        (cfg, Except.error Err.valueError)) := by
  have hps := kolPowerSpectrum_vonKarman_no_outer cfg wave hk ho
  simp only [kolGetOpd, randTurbulentT_eq, hps]

/-- C2 (witness): the amended theorem at the concrete configuration
`c2cfgVK` and wavefront `wave4`. -/
theorem c2_witness :
    c2cfgVK.kind = "von Karman" ∧ c2cfgVK.outer_scale = none ∧
      kolGetOpd normal0 c2cfgVK wave4 1 2 =
        ([Event.normalDraw wave4.shape, Event.normalDraw wave4.shape],
          (c2cfgVK, Except.error Err.valueError)) :=
  ⟨rfl, rfl, c2_amended normal0 c2cfgVK wave4 1 2 rfl rfl⟩

/-! ### C3 -/

/-- An rms is a square root, hence non-negative. -/
theorem rmsOver_nonneg (n : ℕ) (ap : ℕ → ℕ → Bool) (f : MatR) :
    0 ≤ rmsOver n ap f :=
  Real.sqrt_nonneg _

/-- Scaling every entry scales the masked rms by the absolute factor. -/
theorem rmsOver_mulRight (n : ℕ) (ap : ℕ → ℕ → Bool) (f : MatR) (c : ℝ) :
    rmsOver n ap (fun i j => f i j * c) = rmsOver n ap f * |c| := by
  unfold rmsOver
  have h1 : ∑ p in maskPixels n ap, (f p.1 p.2 * c) ^ 2 =
      (∑ p in maskPixels n ap, f p.1 p.2 ^ 2) * c ^ 2 := by
    rw [Finset.sum_mul]
    exact Finset.sum_congr rfl (fun p _ => by ring)
  rw [h1, mul_div_right_comm, Real.sqrt_mul' _ (sq_nonneg c), Real.sqrt_sq_eq_abs]

/-- Central pad-or-crop commutes with pointwise scaling. -/
theorem padOrCrop_mulRight (t s : ℕ) (f : MatR) (c : ℝ) :
    padOrCrop t s (fun i j => f i j * c) = fun i j => padOrCrop t s f i j * c := by
  by_cases h : t ≤ s
  · simp only [padOrCrop, if_pos h]
  · simp only [padOrCrop, if_neg h]
    funext i j
    split_ifs with hw
    · rfl
    · exact (zero_mul c).symm

/-- Pad-or-crop to the same shape is the identity. -/
theorem padOrCrop_self (n : ℕ) (f : MatR) : padOrCrop n n f = f := by
  unfold padOrCrop
  rw [if_pos le_rfl]
  funext i j
  simp [Nat.sub_self]

/-- C3: the calibration tail of `PowerSpectrumWFE.get_opd` (the stage
producing the returned array), for a configuration with a target rms `t`,
normal incidence (`incident_angle = 0`) and `apply_reflection=False`,
yields an OPD whose root-mean-square measured over the pixels strictly
inside the circular aperture (`apMask cfg.radius wave`) on the
wavefront-shaped grid equals `t` exactly, for EVERY raw synthesised array
`opd0` of screen size `s ≥ wave.shape` whose measured rms is non-zero:
the code measures the rms on the centrally cropped array and rescales the
whole array by `t / measured`, so the final (cropped) result has rms `t`. -/
theorem c3_rms_calibration (apMask : Option ℝ → WaveDesc → ℕ → ℕ → Bool)
    (cfg : PSWConfig) (wave : WaveDesc) (s : ℕ) (opd0 : MatR) (t : ℝ)
    (hrms : cfg.rms = some t) (ht : 0 ≤ t) (hang : cfg.incident_angle = 0)
    (href : cfg.apply_reflection = false) (hs : wave.shape ≤ s)
    (hm : rmsOver wave.shape (apMask cfg.radius wave) (padOrCrop wave.shape s opd0) ≠ 0) :
    rmsOver wave.shape (apMask cfg.radius wave) (pswCalibrate apMask cfg wave s opd0) = t := by
  unfold pswCalibrate
  rw [hrms]
  dsimp only
  rw [hang, if_neg (show ¬((0 : ℝ) ≠ 0) by norm_num), href,
    if_neg (show ¬(false = true) by simp)]
  rcases eq_or_lt_of_le hs with heq | hlt
  · rw [if_neg (show ¬(wave.shape < s) by omega)]
    rw [← heq] at hm ⊢
    rw [padOrCrop_self] at hm ⊢
    rw [rmsOver_mulRight,
      abs_of_nonneg (div_nonneg ht (rmsOver_nonneg _ _ _)), mul_comm]
    exact div_mul_cancel₀ t hm
  · rw [if_pos hlt, padOrCrop_mulRight, rmsOver_mulRight,
      abs_of_nonneg (div_nonneg ht (rmsOver_nonneg _ _ _)), mul_comm]
    exact div_mul_cancel₀ t hm

/-- C3 (witness): the calibration theorem at the concrete configuration
`c3cfg` (target rms 2 m), the 1-by-1 wavefront, screen size 1 and the
constant raw array `c3opd`; the measured rms is 1 and the calibrated rms
is exactly the target 2. -/
theorem c3_witness :
    c3cfg.rms = some 2 ∧ (0 : ℝ) ≤ 2 ∧ c3cfg.incident_angle = 0 ∧
      c3cfg.apply_reflection = false ∧ wave1.shape ≤ 1 ∧
      rmsOver wave1.shape (apMask0 c3cfg.radius wave1)
        (padOrCrop wave1.shape 1 c3opd) ≠ 0 ∧
      rmsOver wave1.shape (apMask0 c3cfg.radius wave1)
        (pswCalibrate apMask0 c3cfg wave1 1 c3opd) = 2 := by
  have h1 : rmsOver wave1.shape (apMask0 c3cfg.radius wave1)
      (padOrCrop wave1.shape 1 c3opd) = 1 := by
    have hsh : wave1.shape = 1 := rfl
    rw [hsh, padOrCrop_self]
    unfold rmsOver
    have h2 : maskPixels 1 (apMask0 c3cfg.radius wave1) = {(0, 0)} := by decide
    rw [h2]
    simp [c3opd]
  exact ⟨rfl, by norm_num, rfl, rfl, le_rfl, by rw [h1]; exact one_ne_zero,
    c3_rms_calibration apMask0 c3cfg wave1 1 c3opd 2 rfl (by norm_num) rfl rfl
      le_rfl (by rw [h1]; exact one_ne_zero)⟩

/-! ### C5 -/

/-- The state returned by the resolved body of `PowerSpectrumWFE.get_opd`
differs from its input configuration at most in the `opd` cache field. -/
theorem pswBody_state (normal : ℕ → ℕ → ℕ → ℝ)
    (apMask : Option ℝ → WaveDesc → ℕ → ℕ → Bool) (cfg : PSWConfig)
    (wave : WaveDesc) (e s : ℕ) :
    ∃ x, (pswBody normal apMask cfg wave e s).1 = { cfg with opd := x } := by
  unfold pswBody
  dsimp only
  rcases hp : pswPsdLoop cfg.psd_parameters (s / 2) (1 / ((s : ℝ) * wave.pixelscale))
      cfg.psd_weight 0 (fun _ _ => 0) with er | p
  · exact ⟨cfg.opd, rfl⟩
  · exact ⟨some (pswSynth normal apMask cfg wave e s p), rfl⟩

/-- C5 (counterexample): `PowerSpectrumWFE.get_opd` is NOT free of writes
to configuration fields set at construction: on the concrete
configuration constructed with `screen_size=None` and the unpadded
4-by-4 wavefront, the call writes `screen_size = 16` (4x the wavefront
side) into the configuration, so the configured `screen_size` is
modified. -/
theorem c5_counterexample :
    ((pswGetOpd normal0 apMask0 c5cfgNone wave4 0).1).screen_size = some 16 ∧
      c5cfgNone.screen_size = none :=
  ⟨rfl, rfl⟩

/-- C5 (amended): a `PowerSpectrumWFE.get_opd` call leaves every
configuration field set at construction unchanged — except that, when
`screen_size` was constructed as `None`, the wave-derived default is
written into `self.screen_size` (see the counterexample).  With an
explicitly configured `screen_size` the field, and every other
configuration field, is unchanged; only the documented `self.opd` cache
may be written. -/
theorem c5_amended (normal : ℕ → ℕ → ℕ → ℝ)
    (apMask : Option ℝ → WaveDesc → ℕ → ℕ → Bool) (cfg : PSWConfig)
    (wave : WaveDesc) (e s : ℕ) (h : cfg.screen_size = some s) :
    ((pswGetOpd normal apMask cfg wave e).1).psd_parameters = cfg.psd_parameters ∧
    ((pswGetOpd normal apMask cfg wave e).1).psd_weight = cfg.psd_weight ∧
    ((pswGetOpd normal apMask cfg wave e).1).seed = cfg.seed ∧
    ((pswGetOpd normal apMask cfg wave e).1).apply_reflection = cfg.apply_reflection ∧
    ((pswGetOpd normal apMask cfg wave e).1).screen_size = cfg.screen_size ∧
    ((pswGetOpd normal apMask cfg wave e).1).rms = cfg.rms ∧
    ((pswGetOpd normal apMask cfg wave e).1).incident_angle = cfg.incident_angle ∧
    ((pswGetOpd normal apMask cfg wave e).1).radius = cfg.radius := by
  have key : ∃ x, (pswGetOpd normal apMask cfg wave e).1 = { cfg with opd := x } := by
    unfold pswGetOpd
    by_cases hw : wave.isBaseWavefront = true
    · rw [if_pos hw, h]
      dsimp only
      split_ifs with hp1 hlt1 hlt2
      · exact ⟨cfg.opd, by rw [← h]⟩
      · obtain ⟨x, hx⟩ := pswBody_state normal apMask cfg wave e s
        exact ⟨x, by rw [hx, ← h]⟩
      · exact ⟨cfg.opd, by rw [← h]⟩
      · obtain ⟨x, hx⟩ := pswBody_state normal apMask cfg wave e s
        exact ⟨x, by rw [hx, ← h]⟩
    · rw [if_neg hw]
      exact ⟨cfg.opd, rfl⟩
  rcases key with ⟨x, hx⟩
  rw [hx]
  exact ⟨rfl, rfl, rfl, rfl, rfl, rfl, rfl, rfl⟩

/-- C5 (witness): the amended theorem at the concrete configuration with
explicit `screen_size=8`: the configured screen size is unchanged by the
call. -/
theorem c5_witness :
    c5cfgSome.screen_size = some 8 ∧
      ((pswGetOpd normal0 apMask0 c5cfgSome wave4 0).1).screen_size =
        c5cfgSome.screen_size :=
  ⟨rfl, (c5_amended normal0 apMask0 c5cfgSome wave4 0 8 rfl).2.2.2.2.1⟩

/-! ### C6 -/

/-- `statOpd` ignores the `opd` cache field. -/
theorem statOpd_opd (normal : ℕ → ℕ → ℕ → ℝ) (cfg : StatCfg) (wave : WaveDesc)
    (e : ℕ) (x : Option MatR) :
    statOpd normal { cfg with opd := x } wave e = statOpd normal cfg wave e :=
  rfl

/-- With a configured seed, `statOpd` does not depend on the per-call
entropy. -/
theorem statOpd_entropy (normal : ℕ → ℕ → ℕ → ℝ) (cfg : StatCfg)
    (wave : WaveDesc) (k e1 e2 : ℕ) (h : cfg.seed = some k) :
    statOpd normal cfg wave e1 = statOpd normal cfg wave e2 := by
  simp only [statOpd, h, resolveSeed]

/-- `pswSynth` reads neither the `screen_size` field (it receives the
resolved size as an argument) nor the `opd` cache. -/
theorem pswSynth_config (normal : ℕ → ℕ → ℕ → ℝ)
    (apMask : Option ℝ → WaveDesc → ℕ → ℕ → Bool) (cfg : PSWConfig)
    (wave : WaveDesc) (e s : ℕ) (p : MatR) (x : Option MatR) (y : Option ℕ) :
    pswSynth normal apMask { cfg with screen_size := y, opd := x } wave e s p =
      pswSynth normal apMask cfg wave e s p :=
  rfl

/-- The value returned by the resolved body of `PowerSpectrumWFE.get_opd`
does not depend on the `screen_size`/`opd` fields of the configuration
record (the resolved size is an argument). -/
theorem pswBody_val_config (normal : ℕ → ℕ → ℕ → ℝ)
    (apMask : Option ℝ → WaveDesc → ℕ → ℕ → Bool) (cfg : PSWConfig)
    (wave : WaveDesc) (e s : ℕ) (x : Option MatR) (y : Option ℕ) :
    (pswBody normal apMask { cfg with screen_size := y, opd := x } wave e s).2 =
      (pswBody normal apMask cfg wave e s).2 := by
  unfold pswBody
  dsimp only
  rcases hp : pswPsdLoop cfg.psd_parameters (s / 2) (1 / ((s : ℝ) * wave.pixelscale))
      cfg.psd_weight 0 (fun _ _ => 0) with er | p
  · rfl
  · dsimp only
    rw [pswSynth_config]

/-- With a configured seed, the body of `PowerSpectrumWFE.get_opd` does
not depend on the per-call entropy. -/
theorem pswBody_entropy (normal : ℕ → ℕ → ℕ → ℝ)
    (apMask : Option ℝ → WaveDesc → ℕ → ℕ → Bool) (cfg : PSWConfig)
    (wave : WaveDesc) (k e1 e2 s : ℕ) (h : cfg.seed = some k) :
    pswBody normal apMask cfg wave e1 s = pswBody normal apMask cfg wave e2 s := by
  simp only [pswBody, pswSynth, h, resolveSeed]

/-- With a configured seed the underlying Gaussian draw of
`rand_symmetrized` is the seeded array, whatever the entropy. -/
theorem randSymUnderlying_some (normal : ℕ → ℕ → ℕ → ℝ) (k e : ℕ) :
    randSymUnderlying normal (some k) e = normal k :=
  rfl

/-- `power_spectrum` ignores the `opd` cache field. -/
theorem kolPowerSpectrum_opd (cfg : KolCfg) (wave : WaveDesc) (x : Option MatR) :
    kolPowerSpectrum { cfg with opd := x } wave = kolPowerSpectrum cfg wave :=
  rfl

/-- The value returned by `KolmogorovWFE.get_opd` ignores the `opd`
cache field. -/
theorem kolGetOpd_val_opd (normal : ℕ → ℕ → ℕ → ℝ) (cfg : KolCfg)
    (wave : WaveDesc) (e1 e2 : ℕ) (x : Option MatR) :
    ((kolGetOpd normal { cfg with opd := x } wave e1 e2).2).2 =
      ((kolGetOpd normal cfg wave e1 e2).2).2 := by
  unfold kolGetOpd
  dsimp only
  rw [randTurbulentT_eq]
  dsimp only
  rw [kolPowerSpectrum_opd]
  rcases hps : kolPowerSpectrum cfg wave with er | phi
  · rfl
  · rfl

/-- With a configured seed, `KolmogorovWFE.get_opd` does not depend on
the per-call entropy values. -/
theorem kolGetOpd_entropy (normal : ℕ → ℕ → ℕ → ℝ) (cfg : KolCfg)
    (wave : WaveDesc) (k e1 e2 e3 e4 : ℕ) (h : cfg.seed = some k) :
    kolGetOpd normal cfg wave e1 e2 = kolGetOpd normal cfg wave e3 e4 := by
  simp only [kolGetOpd, randTurbulentT_eq, h, randSymUnderlying_some]

/-- C6: with a fixed integer seed, two successive `get_opd` calls of each
stochastic error source (`StatisticalPSDWFE`, `PowerSpectrumWFE`,
`KolmogorovWFE`) with the same wavefront descriptor return identical OPD
results (value and error status), for every Gaussian generator, for every
aperture collaborator, and for arbitrary fresh per-call entropy: each
call reseeds its own generator from the configured seed, and the state
mutated by the first call (the `opd` cache, and for `PowerSpectrumWFE`
the resolved `screen_size`) does not change the second call's value. -/
theorem c6_determinism (normal : ℕ → ℕ → ℕ → ℝ)
    (apMask : Option ℝ → WaveDesc → ℕ → ℕ → Bool)
    (scfg : StatCfg) (pcfg : PSWConfig) (kcfg : KolCfg)
    (w1 w2 w3 : WaveDesc) (k1 k2 k3 e1 e2 f1 f2 g1 g2 g3 g4 : ℕ)
    (h1 : scfg.seed = some k1) (h2 : pcfg.seed = some k2)
    (h3 : kcfg.seed = some k3) :
    (statGetOpd normal ((statGetOpd normal scfg w1 e1).1) w1 e2).2 =
      (statGetOpd normal scfg w1 e1).2 ∧
    (pswGetOpd normal apMask ((pswGetOpd normal apMask pcfg w2 f1).1) w2 f2).2 =
      (pswGetOpd normal apMask pcfg w2 f1).2 ∧
    ((kolGetOpd normal ((kolGetOpd normal kcfg w3 g1 g2).2.1) w3 g3 g4).2).2 =
      ((kolGetOpd normal kcfg w3 g1 g2).2).2 := by
  refine ⟨?_, ?_, ?_⟩
  · -- StatisticalPSDWFE
    by_cases hw : w1.isBaseWavefront = true
    · simp only [statGetOpd, if_pos hw]
      try dsimp only
      rw [statOpd_opd, statOpd_entropy normal scfg w1 k1 e2 e1 h1]
    · simp only [statGetOpd, if_neg hw]
  · -- PowerSpectrumWFE
    by_cases hw : w2.isBaseWavefront = true
    · rcases hscr : pcfg.screen_size with _ | s
      · -- screen_size = None: resolved and written back by the first call
        simp only [pswGetOpd, if_pos hw, hscr]
        set S := (if w2.ispadded = true then w2.shape else w2.shape * 4) with hS
        have hnl : ¬ (S < (if w2.ispadded = true then w2.shape / w2.oversample
            else w2.shape)) := by
          have hdiv := Nat.div_le_self w2.shape w2.oversample
          rw [hS]
          by_cases hp : w2.ispadded = true
          · rw [if_pos hp, if_pos hp]; omega
          · rw [if_neg hp, if_neg hp]; omega
        obtain ⟨x, hx⟩ :=
          pswBody_state normal apMask { pcfg with screen_size := some S } w2 f1 S
        rw [hx]
        try dsimp only
        rw [if_neg hnl]
        exact ((pswBody_val_config normal apMask pcfg w2 f2 S x (some S)).trans
          (congrArg Prod.snd
            (pswBody_entropy normal apMask pcfg w2 k2 f2 f1 S h2))).trans
          (pswBody_val_config normal apMask pcfg w2 f1 S pcfg.opd (some S)).symm
      · -- screen_size explicitly configured
        simp only [pswGetOpd, if_pos hw, hscr]
        by_cases hlt : s < (if w2.ispadded = true then w2.shape / w2.oversample
            else w2.shape)
        · rw [if_pos hlt]
          try dsimp only
          rw [hscr]
          try dsimp only
          rw [if_pos hlt]
        · rw [if_neg hlt]
          obtain ⟨x, hx⟩ := pswBody_state normal apMask pcfg w2 f1 s
          rw [hx]
          try dsimp only
          rw [hscr]
          try dsimp only
          rw [if_neg hlt]
          exact (pswBody_val_config normal apMask pcfg w2 f2 s x (some s)).trans
            (congrArg Prod.snd (pswBody_entropy normal apMask pcfg w2 k2 f2 f1 s h2))
    · simp only [pswGetOpd, if_neg hw]
  · -- KolmogorovWFE
    have key : ∃ x, ((kolGetOpd normal kcfg w3 g1 g2).2).1 = { kcfg with opd := x } := by
      unfold kolGetOpd
      dsimp only
      rw [randTurbulentT_eq]
      dsimp only
      rcases hps : kolPowerSpectrum kcfg w3 with er | phi
      · exact ⟨kcfg.opd, rfl⟩
      · exact ⟨some _, rfl⟩
    obtain ⟨x, hx⟩ := key
    rw [hx, kolGetOpd_val_opd, kolGetOpd_entropy normal kcfg w3 k3 g3 g4 g1 g2 h3]

/-- C6 (witness): the determinism theorem at the concrete seeded
configurations `c6statCfg` (seed 7), `c6pswCfg` (seed 2) and `c6kolCfg`
(seed 5), the concrete generator `normal0`, the full-aperture mask and
the 4-by-4 wavefront, with distinct per-call entropy values. -/
theorem c6_witness :
    c6statCfg.seed = some 7 ∧ c6pswCfg.seed = some 2 ∧ c6kolCfg.seed = some 5 ∧
      ((statGetOpd normal0 ((statGetOpd normal0 c6statCfg wave4 0).1) wave4 1).2 =
        (statGetOpd normal0 c6statCfg wave4 0).2 ∧
      (pswGetOpd normal0 apMask0 ((pswGetOpd normal0 apMask0 c6pswCfg wave4 2).1)
          wave4 3).2 =
        (pswGetOpd normal0 apMask0 c6pswCfg wave4 2).2 ∧
      ((kolGetOpd normal0 ((kolGetOpd normal0 c6kolCfg wave4 4 5).2.1) wave4 6 7).2).2 =
        ((kolGetOpd normal0 c6kolCfg wave4 4 5).2).2) :=
  ⟨rfl, rfl, rfl,
    c6_determinism normal0 apMask0 c6statCfg c6pswCfg c6kolCfg wave4 wave4 wave4
      7 2 5 0 1 2 3 4 5 6 7 rfl rfl rfl⟩

/-! ### C10 -/

/-- C10: `get_opd` of `ZernikeWFE`, `ParameterizedWFE`, `SineWaveWFE`,
`StatisticalPSDWFE` and `PowerSpectrumWFE` is decorated with
`_check_wavefront_arg` and raises `ValueError` whenever the first
argument is not a `BaseWavefront` instance, for every configuration and
collaborator; `KolmogorovWFE.get_opd` carries no such decorator and
performs no validation of its argument — its result is entirely
independent of whether the argument is a `BaseWavefront` instance. -/
theorem c10_wavefront_guard (zern : ℕ → MatR) (apTrans : WaveDesc → MatR)
    (normal : ℕ → ℕ → ℕ → ℝ) (apMask : Option ℝ → WaveDesc → ℕ → ℕ → Bool)
    (factory : ℕ → MatR → MatR → List MatR) (radius : ℝ) (cs : List ℚ)
    (zcfg : ZernCfg) (sncfg : SineCfg) (scfg : StatCfg) (pcfg : PSWConfig)
    (kcfg : KolCfg) (wave : WaveDesc) (e e1 e2 : ℕ)
    (hw : wave.isBaseWavefront = false) :
    zernikeGetOpd zern apTrans zcfg wave = .error .valueError ∧
    paramGetOpd factory radius cs wave = .error .valueError ∧
    sineGetOpd sncfg wave = .error .valueError ∧
    (statGetOpd normal scfg wave e).2 = .error .valueError ∧
    (pswGetOpd normal apMask pcfg wave e).2 = .error .valueError ∧
    ∀ b : Bool, kolGetOpd normal kcfg { wave with isBaseWavefront := b } e1 e2 =
      kolGetOpd normal kcfg wave e1 e2 := by
  refine ⟨?_, ?_, ?_, ?_, ?_, ?_⟩
  · simp [zernikeGetOpd, hw]
  · simp [paramGetOpd, hw]
  · simp [sineGetOpd, hw]
  · simp [statGetOpd, hw]
  · simp [pswGetOpd, hw]
  · intro b
    rfl

/-- C10 (witness): the guard theorem at concrete configurations and the
concrete non-wavefront argument `waveNotWF`. -/
theorem c10_witness :
    waveNotWF.isBaseWavefront = false ∧
      (zernikeGetOpd c10zern c10apTrans c10zernCfg waveNotWF = .error .valueError ∧
      paramGetOpd c9factory 1 [1] waveNotWF = .error .valueError ∧
      sineGetOpd c10sineCfg waveNotWF = .error .valueError ∧
      (statGetOpd normal0 c6statCfg waveNotWF 0).2 = .error .valueError ∧
      (pswGetOpd normal0 apMask0 c6pswCfg waveNotWF 0).2 = .error .valueError ∧
      ∀ b : Bool, kolGetOpd normal0 c6kolCfg
          { waveNotWF with isBaseWavefront := b } 0 1 =
        kolGetOpd normal0 c6kolCfg waveNotWF 0 1) :=
  ⟨rfl, c10_wavefront_guard c10zern c10apTrans normal0 apMask0 c9factory 1 [1]
    c10zernCfg c10sineCfg c6statCfg c6pswCfg c6kolCfg waveNotWF 0 0 1 rfl⟩

end PoppyWFE
